import Mathlib

/-!
Verification of the todo.txt task library (`qtodotxt/lib/tasklib.py`).

Strings are modelled as `List Char` (named `Str`), so that Python's
character-level operations (`split(' ')`, slicing, `replace`, lexicographic
comparison) can be embedded exactly and proved about.  Python code that can
raise (`IndexError` from `words[0]` on an empty list, `TypeError` from
`ord` on a non-single-character string, `AttributeError` from calling a
method on `None`) is embedded as `Option`-returning functions where `none`
marks the raising path.
-/

set_option autoImplicit false

namespace TaskLib

abbrev Str := List Char

/-- Python's `s.split(c)` for a single-character separator: splits on every
occurrence, keeping empty pieces; `"".split(c) = [""]`. -/
def splitOnChar (c : Char) : Str → List Str
  | [] => [[]]
  | a :: rest =>
    if a = c then [] :: splitOnChar c rest
    else
      match splitOnChar c rest with
      | [] => [[a]]
      | w :: ws => (a :: w) :: ws

/-- Python's `c.join(pieces)` for a single-character separator. -/
def joinChar (c : Char) : List Str → Str
  | [] => []
  | [w] => w
  | w :: x :: ws => w ++ c :: joinChar c (x :: ws)

theorem splitOnChar_ne_nil (c : Char) (s : Str) : splitOnChar c s ≠ [] := by
  cases s with
  | nil => simp [splitOnChar]
  | cons a rest =>
    simp only [splitOnChar]
    split
    · simp
    · split <;> simp

theorem joinChar_splitOnChar (c : Char) (s : Str) :
    joinChar c (splitOnChar c s) = s := by
  induction s with
  | nil => rfl
  | cons a rest ih =>
    simp only [splitOnChar]
    split
    · rename_i h
      subst h
      cases hr : splitOnChar a rest with
      | nil => exact absurd hr (splitOnChar_ne_nil a rest)
      | cons w ws =>
        rw [hr] at ih
        simp only [joinChar]
        rw [ih]
        rfl
    · cases hr : splitOnChar c rest with
      | nil => exact absurd hr (splitOnChar_ne_nil c rest)
      | cons w ws =>
        rw [hr] at ih
        cases ws with
        | nil => simp only [joinChar] at ih ⊢; rw [ih]
        | cons x xs => simp only [joinChar] at ih ⊢; rw [List.cons_append, ih]

theorem splitOnChar_append_sep (c : Char) (w s : Str) (hw : c ∉ w) :
    splitOnChar c (w ++ c :: s) = w :: splitOnChar c s := by
  induction w with
  | nil => simp [splitOnChar]
  | cons a w' ih =>
    have ha : a ≠ c := fun h => hw (h ▸ List.mem_cons_self a w')
    have hw' : c ∉ w' := fun h => hw (List.mem_cons_of_mem a h)
    have h2 : splitOnChar c ((a :: w') ++ c :: s) = splitOnChar c (a :: (w' ++ c :: s)) := rfl
    rw [h2, splitOnChar.eq_def]
    simp only [if_neg ha, ih hw']

/-- A calendar date as handled by Python's `datetime.date`. -/
structure PDate where
  year : Nat
  month : Nat
  day : Nat
deriving DecidableEq, Repr

/-- Python `date` ordering (`d1 <= d2`), lexicographic on (year, month, day). -/
def dateLE (a b : PDate) : Bool :=
  decide (a.year < b.year ∨ (a.year = b.year ∧
    (a.month < b.month ∨ (a.month = b.month ∧ a.day ≤ b.day))))

def digitVal (c : Char) : Nat := c.toNat - '0'.toNat

/-- The month field of `strptime`'s `%m` directive: one digit `1-9`, or two
digits `01-09` / `10-12`. -/
def parseMonth : Str → Option Nat
  | [c] => if '1' ≤ c ∧ c ≤ '9' then some (digitVal c) else none
  | [a, b] =>
    if (a = '0' ∧ '1' ≤ b ∧ b ≤ '9') ∨ (a = '1' ∧ '0' ≤ b ∧ b ≤ '2') then
      some (10 * digitVal a + digitVal b)
    else none
  | _ => none

/-- The day field of `strptime`'s `%d` directive: one digit `1-9`, or two
digits `01-09` / `10-29` / `30` / `31`. -/
def parseDay : Str → Option Nat
  | [c] => if '1' ≤ c ∧ c ≤ '9' then some (digitVal c) else none
  | [a, b] =>
    if (a = '0' ∧ '1' ≤ b ∧ b ≤ '9') ∨ ((a = '1' ∨ a = '2') ∧ b.isDigit)
        ∨ (a = '3' ∧ (b = '0' ∨ b = '1')) then
      some (10 * digitVal a + digitVal b)
    else none
  | _ => none

def daysInMonth (y m : Nat) : Nat :=
  if m = 2 then (if (y % 4 = 0 ∧ ¬ y % 100 = 0) ∨ y % 400 = 0 then 29 else 28)
  else if m = 4 ∨ m = 6 ∨ m = 9 ∨ m = 11 then 30 else 31

/-- `Task._parseDate`: `datetime.strptime(string, '%Y-%m-%d')` with the
`ValueError` path (bad shape, bad ranges, or invalid calendar date) mapped to
`none`.  `%Y` is exactly four digits; the whole string must be consumed. -/
def parseDate (s : Str) : Option PDate :=
  match s with
  | y1 :: y2 :: y3 :: y4 :: '-' :: rest =>
    if y1.isDigit ∧ y2.isDigit ∧ y3.isDigit ∧ y4.isDigit then
      let y := 1000 * digitVal y1 + 100 * digitVal y2 + 10 * digitVal y3 + digitVal y4
      match splitOnChar '-' rest with
      | [ms, ds] =>
        match parseMonth ms, parseDay ds with
        | some m, some d =>
          if 1 ≤ y ∧ d ≤ daysInMonth y m then some ⟨y, m, d⟩ else none
        | _, _ => none
      | _ => none
    else none
  | _ => none

def natDigits (n : Nat) : Str := Nat.toDigits 10 n

def pad2 (n : Nat) : Str := if n < 10 then '0' :: natDigits n else natDigits n

/-- `date.strftime('%Y-%m-%d')` for years of four decimal digits. -/
def formatDate (d : PDate) : Str :=
  natDigits d.year ++ '-' :: (pad2 d.month ++ '-' :: pad2 d.day)

/-- The fields of a `Task` object.  `lowest_priority` is the per-instance
value read once from the configuration provider (`QSettings`, default "D");
`_highest_priority` is the constant "A" and is inlined where used. -/
structure Task where
  contexts : List Str
  projects : List Str
  priority : Str
  is_complete : Bool
  completion_date : Option PDate
  is_future : Option PDate
  text : Str
  due : Option PDate
  threshold : Option Str
  keywords : List (Str × Str)
  lowest_priority : Str
deriving DecidableEq, Repr

/-- The state after `Task._reset()`: every parse-derived field cleared
(the configured `lowest_priority` is not reset). -/
def Task.empty (lowest : Str) : Task :=
  { contexts := [], projects := [], priority := [], is_complete := false,
    completion_date := none, is_future := none, text := [], due := none,
    threshold := none, keywords := [], lowest_priority := lowest }

/-- Python `dict` update `d[k] = v`: overwrites in place on an existing key
(keeping its position), appends otherwise. -/
def dictInsert (k v : Str) : List (Str × Str) → List (Str × Str)
  | [] => [(k, v)]
  | (k', v') :: rest => if k' = k then (k, v) :: rest else (k', v') :: dictInsert k v rest

/-- `word.split(":", 1)` on a word known to contain a colon: the part before
the first colon and the part after it. -/
def splitFirstColon : Str → Str × Str
  | [] => ([], [])
  | c :: rest =>
    if c = ':' then ([], rest)
    else
      let p := splitFirstColon rest
      (c :: p.1, p.2)

/-- The `t:` activation gate: keep the parsed threshold date only when it is
strictly after today. -/
def futureGate (today : PDate) : Option PDate → Option PDate
  | none => none
  | some d => if dateLE d today then none else some d

/-- The `key:value` case of `Task._parseWord`: record the keyword (last
write wins) and additionally fill `due` or `threshold`/`is_future` for the
`due:` and `t:` keys. -/
def applyKeyword (today : PDate) (key val : Str) (t : Task) : Task :=
  if key = "due".data then
    { t with keywords := dictInsert key val t.keywords, due := parseDate val }
  else if key = "t".data then
    { t with keywords := dictInsert key val t.keywords,
             threshold := some val, is_future := futureGate today (parseDate val) }
  else { t with keywords := dictInsert key val t.keywords }

/-- `Task._parseWord(word)`: classify one token into the structured fields. -/
def parseWord (today : PDate) (t : Task) (word : Str) : Task :=
  if word.length > 1 then
    match word with
    | '@' :: rest => { t with contexts := t.contexts ++ [rest] }
    | '+' :: rest => { t with projects := t.projects ++ [rest] }
    | _ =>
      if word.contains ':' then
        applyKeyword today (splitFirstColon word).1 (splitFirstColon word).2 t
      else t
  else t

/-- `re.search(r'^\([A-Z]\)$', w)`: an exact `(X)` token with one ASCII
uppercase letter; `$` also matches just before one trailing newline. -/
def isPriorityWord (w : Str) : Bool :=
  match w with
  | ['(', c, ')'] => decide ('A' ≤ c ∧ c ≤ 'Z')
  | ['(', c, ')', '\x0a'] => decide ('A' ≤ c ∧ c ≤ 'Z')
  | _ => false

/-- The body of `Task.parseLine` after the line has been split into words.
`none` is the `IndexError` raised by `words[0]` when the leading "x" was the
only word. -/
def parseFields (today : PDate) (lowest : Str) (words : List Str) : Option Task :=
  match words with
  | [] => none
  | w :: rest =>
    if w = "x".data then
      match rest with
      | [] => none
      | w2 :: rest2 =>
        let cd := parseDate w2
        let t0 := { Task.empty lowest with is_complete := true, completion_date := cd }
        let remaining := if cd.isSome then rest2 else rest
        some (remaining.foldl (parseWord today) t0)
    else if isPriorityWord w then
      some (rest.foldl (parseWord today)
        { Task.empty lowest with priority := (w.drop 1).dropLast })
    else
      some ((w :: rest).foldl (parseWord today) (Task.empty lowest))

/-- `Task.parseLine(line)`: reset, split on single spaces, consume the
optional `x [date]` or `(X)` lead, classify the remaining words, and store
the input line verbatim in `text`. -/
def parseLine (today : PDate) (lowest : Str) (line : Str) : Option Task :=
  (parseFields today lowest (splitOnChar ' ' line)).map (fun t => { t with text := line })

/-- `Task.setCompleted()`: no-op when already complete, else prepend
`x <today> ` and set the completion fields. -/
def setCompleted (today : PDate) (t : Task) : Task :=
  if t.is_complete then t
  else
    { t with completion_date := some today,
             text := 'x' :: ' ' :: (formatDate today ++ ' ' :: t.text),
             is_complete := true }

/-- `Task.setPending()`: no-op when not complete, else drop the leading `x`
word and, when the second word parses as a date, that word as well.  `none`
is the `IndexError` from `words[1]` when the text is a single word. -/
def setPending (t : Task) : Option Task :=
  if t.is_complete then
    match splitOnChar ' ' t.text with
    | _ :: w1 :: rest =>
      match parseDate w1 with
      | some _ => some { t with text := joinChar ' ' rest,
                                is_complete := false, completion_date := none }
      | none => some { t with text := joinChar ' ' (w1 :: rest),
                              is_complete := false, completion_date := none }
    | _ => none
  else some t

/-- `Task.increasePriority()`.  `none` is the `TypeError` from `ord` on a
priority string that is not a single character. -/
def increasePriority (t : Task) : Option Task :=
  if t.is_complete then some t
  else if t.priority = [] then
    some { t with priority := t.lowest_priority,
                  text := '(' :: (t.lowest_priority ++ ')' :: ' ' :: t.text) }
  else if t.priority = ['A'] then some t
  else
    match t.priority with
    | [c] =>
      let c' := Char.ofNat (c.toNat - 1)
      some { t with priority := [c'],
                    text := '(' :: c' :: ')' :: ' ' :: t.text.drop 4 }
    | _ => none

/-- Python lexicographic string comparison `a < b` on code points. -/
def strLT : Str → Str → Bool
  | _, [] => false
  | [], _ :: _ => true
  | a :: as, b :: bs => if a < b then true else if b < a then false else strLT as bs

/-- Python `a >= b` on strings, i.e. `not (a < b)`. -/
def strGE (a b : Str) : Bool := ! strLT a b

/-- Python `s.replace(pat, rep, 1)` for a non-empty pattern: replace the
first occurrence, if any. -/
def replaceFirst (pat rep : Str) (s : Str) : Str :=
  match s with
  | [] => if pat = [] then rep else []
  | c :: rest =>
    if pat.isPrefixOf (c :: rest) then rep ++ (c :: rest).drop pat.length
    else c :: replaceFirst pat rep rest

/-- Whether `pat` occurs as a contiguous substring of `s`. -/
def containsSub (pat : Str) : Str → Bool
  | [] => pat.isPrefixOf []
  | c :: rest => pat.isPrefixOf (c :: rest) || containsSub pat rest

/-- `Task.decreasePriority()`.  In the first branch the code formats the
already-cleared priority, so it removes the first occurrence of `"()"` from
the text after slicing off the first four characters.  `none` is the
`TypeError` from `ord` on a multi-character priority. -/
def decreasePriority (t : Task) : Option Task :=
  if t.is_complete then some t
  else if strGE t.priority t.lowest_priority then
    some { t with priority := [],
                  text := replaceFirst ['(', ')'] [] (t.text.drop 4) }
  else if t.priority ≠ [] then
    match t.priority with
    | [c] =>
      let c' := Char.ofNat (c.toNat + 1)
      some { t with priority := [c'],
                    text := replaceFirst ['(', c, ')'] ['(', c', ')'] t.text }
    | _ => none
  else some t

/-- `Task.__eq__`: equality is by raw text alone. -/
def taskEq (a b : Task) : Bool := a.text == b.text

/-- `Task._lowerCompleteness(other)`: `none` is the `RuntimeError` raised
when both tasks have the same completeness. -/
def lowerCompleteness (a b : Task) : Option Bool :=
  if a.is_complete ∧ ¬ b.is_complete then some true
  else if ¬ a.is_complete ∧ b.is_complete then some false
  else none

/-- `Task.__lt__(other)`: completeness first, then priority (empty priority
first, then reverse-alphabetical), then reverse-alphabetical raw text. -/
def ltTask (a b : Task) : Option Bool :=
  if a.is_complete ≠ b.is_complete then lowerCompleteness a b
  else if a.priority ≠ b.priority then
    if a.priority = [] then some true
    else if b.priority = [] then some false
    else some (strLT b.priority a.priority)
  else some (strLT b.text a.text)

/-- A filter object: only its `isMatch` capability is visible to this core. -/
structure TaskFilter where
  isMatch : Task → Bool

/-- The inner loop of `filterTasks` for one task: `some true` as soon as a
filter matches, `none` for the `AttributeError` of calling `isMatch` on a
`None` entry. -/
def keepTask (t : Task) : List (Option TaskFilter) → Option Bool
  | [] => some false
  | none :: _ => none
  | some f :: rest => if f.isMatch t then some true else keepTask t rest

/-- The outer loop of `filterTasks`: keep the tasks for which some filter
matched, in order. -/
def filterLoop (filters : List (Option TaskFilter)) : List Task → Option (List Task)
  | [] => some []
  | t :: ts => do
    let b ← keepTask t filters
    let rest ← filterLoop filters ts
    pure (if b then t :: rest else rest)

/-- `filterTasks(filters, tasks)`: a `None` entry anywhere in `filters`
short-circuits to the unfiltered task list. -/
def filterTasks (filters : List (Option TaskFilter)) (tasks : List Task) : Option (List Task) :=
  if filters.any (fun f => f.isNone) then some tasks
  else filterLoop filters tasks

/-- The invariant claimed by the spec: `completionDate` is set iff
`isComplete` is true. -/
def invar (t : Task) : Prop := t.completion_date.isSome = t.is_complete

instance (t : Task) : Decidable (invar t) := by unfold invar; infer_instance

/-- Concrete "today" used in the closed instantiations below. -/
def dW : PDate := ⟨2026, 10, 12⟩

/-- A concrete filter matching completed tasks. -/
def completedFilter : TaskFilter := ⟨fun t => t.is_complete⟩

/-- A concrete task with priority B, used to instantiate ordering facts. -/
def wtB : Task := { Task.empty ['D'] with priority := ['B'], text := "(B) pay bills".data }

/-- A concrete task with priority A, used to instantiate ordering facts. -/
def wtA : Task := { Task.empty ['D'] with priority := ['A'], text := "(A) call mom".data }

/-- A concrete pending task with a multi-word text and no leading `x`. -/
def wt5 : Task := { Task.empty ['D'] with text := "call mom @phone".data }

/-- The task parsed from a concrete line, for closed instantiations. -/
def wt4 : Task := (parseLine dW ['D'] "(A) call mom @phone".data).getD (Task.empty ['D'])

/-- A concrete pending priority-D task, at the configured lowest priority. -/
def wt6 : Task := { Task.empty ['D'] with priority := ['D'], text := "(D) call mom".data }

/-!  Helper lemmas. -/

theorem parseWord_is_complete (today : PDate) (t : Task) (w : Str) :
    (parseWord today t w).is_complete = t.is_complete := by
  unfold parseWord applyKeyword
  repeat' split <;> try rfl

theorem parseWord_completion_date (today : PDate) (t : Task) (w : Str) :
    (parseWord today t w).completion_date = t.completion_date := by
  unfold parseWord applyKeyword
  repeat' split <;> try rfl

theorem parseWord_priority (today : PDate) (t : Task) (w : Str) :
    (parseWord today t w).priority = t.priority := by
  unfold parseWord applyKeyword
  repeat' split <;> try rfl

theorem foldl_parseWord_is_complete (today : PDate) (ws : List Str) (t : Task) :
    (ws.foldl (parseWord today) t).is_complete = t.is_complete := by
  induction ws generalizing t with
  | nil => rfl
  | cons w ws ih => rw [List.foldl_cons, ih, parseWord_is_complete]

theorem foldl_parseWord_completion_date (today : PDate) (ws : List Str) (t : Task) :
    (ws.foldl (parseWord today) t).completion_date = t.completion_date := by
  induction ws generalizing t with
  | nil => rfl
  | cons w ws ih => rw [List.foldl_cons, ih, parseWord_completion_date]

theorem foldl_parseWord_priority (today : PDate) (ws : List Str) (t : Task) :
    (ws.foldl (parseWord today) t).priority = t.priority := by
  induction ws generalizing t with
  | nil => rfl
  | cons w ws ih => rw [List.foldl_cons, ih, parseWord_priority]

theorem replaceFirst_of_not_contains (pat rep s : Str)
    (h : containsSub pat s = false) : replaceFirst pat rep s = s := by
  induction s with
  | nil =>
    unfold containsSub at h
    unfold replaceFirst
    split
    · rename_i hp; subst hp; simp [List.isPrefixOf] at h
    · rfl
  | cons c rest ih =>
    unfold containsSub at h
    rw [Bool.or_eq_false_iff] at h
    unfold replaceFirst
    rw [if_neg (by simp [h.1]), ih h.2]

/-- The predicate "some filter in the list matches this task", with `none`
entries matching nothing. -/
def someFilterMatches (filters : List (Option TaskFilter)) (t : Task) : Bool :=
  filters.any (fun f => match f with | none => false | some g => g.isMatch t)

theorem keepTask_eq (t : Task) (filters : List (Option TaskFilter))
    (h : filters.any (fun f => f.isNone) = false) :
    keepTask t filters = some (someFilterMatches filters t) := by
  induction filters with
  | nil => rfl
  | cons f rest ih =>
    simp only [List.any_cons, Bool.or_eq_false_iff] at h
    cases f with
    | none => simp [Option.isNone] at h
    | some g =>
      by_cases hm : g.isMatch t = true
      · simp [keepTask, hm, someFilterMatches]
      · simp only [keepTask, someFilterMatches, List.any_cons] at *
        simp [hm, ih h.2, someFilterMatches]

theorem filterLoop_eq (filters : List (Option TaskFilter))
    (h : filters.any (fun f => f.isNone) = false) (tasks : List Task) :
    filterLoop filters tasks = some (tasks.filter (someFilterMatches filters)) := by
  induction tasks with
  | nil => rfl
  | cons t ts ih =>
    by_cases hm : someFilterMatches filters t = true
    · simp [filterLoop, keepTask_eq t filters h, ih, hm, List.filter_cons]
    · simp [filterLoop, keepTask_eq t filters h, ih, hm, List.filter_cons]

/-- C7: parsing `"x 2024-03-01 (B) Buy milk"` yields a complete task with
completion date 2024-03-01 and an empty priority: the `(B)` token after the
x/date prefix is not recognized as a priority, since the priority pattern is
only tried on the very first token of a line with no completion marker. -/
theorem c7_example_precedence :
    (parseLine dW ['D'] "x 2024-03-01 (B) Buy milk".data).map (fun t => t.is_complete)
      = some true ∧
    (parseLine dW ['D'] "x 2024-03-01 (B) Buy milk".data).map (fun t => t.completion_date)
      = some (some ⟨2024, 3, 1⟩) ∧
    (parseLine dW ['D'] "x 2024-03-01 (B) Buy milk".data).map (fun t => t.priority)
      = some [] := by
  decide

/-- C10: task equality is determined solely by the raw text: `a == b` holds
exactly when the two `text` fields coincide, whatever the structured fields
(including the configured `lowest_priority`) contain. -/
theorem c10_eq_by_text (a b : Task) : taskEq a b = true ↔ a.text = b.text := by
  simp [taskEq]

/-- C8: the completeness tie-break raises exactly when the two tasks have
equal completeness, and `__lt__` never reaches that raising branch because it
only invokes the tie-break when completeness differs. -/
theorem c8_lower_completeness_error :
    (∀ a b : Task, lowerCompleteness a b = none ↔ a.is_complete = b.is_complete) ∧
    (∀ a b : Task, (ltTask a b).isSome = true) := by
  constructor
  · intro a b
    cases ha : a.is_complete <;> cases hb : b.is_complete <;>
      simp [lowerCompleteness, ha, hb]
  · intro a b
    unfold ltTask
    cases ha : a.is_complete <;> cases hb : b.is_complete <;>
      simp [lowerCompleteness, ha, hb] <;>
      repeat' split <;> try simp

/-- C9: `filterTasks` returns the task list unchanged as soon as the filter
list contains a `None` entry; otherwise it keeps exactly the tasks matched
by some filter, in order.  In particular an empty filter list yields an
empty result and `[None]` yields the input unchanged. -/
theorem c9_filter_tasks :
    (∀ (filters : List (Option TaskFilter)) (tasks : List Task),
      filters.any (fun f => f.isNone) = true → filterTasks filters tasks = some tasks) ∧
    (∀ (filters : List (Option TaskFilter)) (tasks : List Task),
      filters.any (fun f => f.isNone) = false →
      filterTasks filters tasks = some (tasks.filter (someFilterMatches filters))) ∧
    (∀ tasks : List Task, filterTasks [] tasks = some []) ∧
    (∀ tasks : List Task, filterTasks [none] tasks = some tasks) := by
  refine ⟨?_, ?_, ?_, ?_⟩
  · intro filters tasks h
    simp [filterTasks, h]
  · intro filters tasks h
    simp [filterTasks, h, filterLoop_eq filters h tasks]
  · intro tasks
    have h : filterLoop [] tasks = some (tasks.filter (someFilterMatches [])) :=
      filterLoop_eq [] rfl tasks
    simp only [filterTasks, List.any_nil, Bool.false_eq_true, if_neg] at *
    rw [h]
    simp [someFilterMatches]
  · intro tasks
    simp [filterTasks, List.any_cons, Option.isNone]

/-- Closed instantiation of `c9_filter_tasks`: a concrete filter list with no
`None` entry keeps exactly the matching tasks. -/
theorem c9_witness :
    filterTasks [some completedFilter] [wt5, wt6] =
      some (List.filter (someFilterMatches [some completedFilter]) [wt5, wt6]) :=
  c9_filter_tasks.2.1 [some completedFilter] [wt5, wt6] (by decide)

/-- C1, counterexample: parsing is not total.  On the line `"x"` the first
token is `x` with no further tokens, and `parseLine` raises an `IndexError`
(the `words[0]` lookup after the `x` has been consumed). -/
theorem c1_counterexample : parseLine dW ['D'] "x".data = none := by decide

/-- C1, amended: parsing accepts every string except the single line
consisting of exactly `"x"`; on every other input it completes and yields a
field set. -/
theorem c1_total_except_x (today : PDate) (lowest : Str) (line : Str)
    (h : line ≠ "x".data) : (parseLine today lowest line).isSome = true := by
  unfold parseLine parseFields
  cases hs : splitOnChar ' ' line with
  | nil => exact absurd hs (splitOnChar_ne_nil ' ' line)
  | cons w rest =>
    by_cases hx : w = "x".data
    · cases rest with
      | nil =>
        exfalso
        apply h
        have hj := joinChar_splitOnChar ' ' line
        rw [hs, hx] at hj
        exact hj.symm
      | cons w2 r2 => simp [hx]
    · by_cases hp : isPriorityWord w = true <;> simp [hx, hp]

/-- Closed instantiation of `c1_total_except_x` at a concrete line. -/
theorem c1_witness : (parseLine dW ['D'] "call mom".data).isSome = true :=
  c1_total_except_x dW ['D'] "call mom".data (by decide)

/-- C2, counterexample: for two parsed pending tasks where the first has no
priority and the second has priority A, `__lt__` returns `True` — the
no-priority task is less than (sorts before) the prioritized one, not after
it as the claim states. -/
theorem c2_counterexample :
    (parseLine dW ['D'] "call mom".data).map (fun a => a.is_complete) =
      (parseLine dW ['D'] "(A) pay bills".data).map (fun b => b.is_complete) ∧
    (parseLine dW ['D'] "call mom".data).map (fun a => a.priority) = some [] ∧
    (parseLine dW ['D'] "(A) pay bills".data).map (fun b => b.priority) = some ['A'] ∧
    ((parseLine dW ['D'] "call mom".data).bind (fun a =>
      (parseLine dW ['D'] "(A) pay bills".data).bind (fun b => ltTask a b))) = some true := by
  decide

/-- C2, amended: with equal completeness and differing priorities, a task
with no priority is always less than (sorts before) one with a priority;
a task with a priority is never less than one without; and between two
present priorities `a < b` holds exactly when `a`'s letter is alphabetically
greater than `b`'s. -/
theorem c2_priority_order (a b : Task) (hc : a.is_complete = b.is_complete)
    (hp : a.priority ≠ b.priority) :
    (a.priority = [] → ltTask a b = some true) ∧
    (a.priority ≠ [] → b.priority = [] → ltTask a b = some false) ∧
    (a.priority ≠ [] → b.priority ≠ [] →
      ltTask a b = some (strLT b.priority a.priority)) := by
  refine ⟨?_, ?_, ?_⟩
  · intro ha
    simp [ltTask, hc, hp, ha]
    intro hb
    exact absurd (ha.trans hb.symm) hp
  · intro ha hb
    simp [ltTask, hc, hp, ha, hb]
  · intro ha hb
    simp [ltTask, hc, hp, ha, hb]

/-- Closed instantiation of `c2_priority_order`: between priorities B and A,
the B task is less than the A task exactly because B is alphabetically
greater. -/
theorem c2_witness : ltTask wtB wtA = some (strLT wtA.priority wtB.priority) :=
  (c2_priority_order wtB wtA rfl (by decide)).2.2 (by decide) (by decide)

/-- Lemma: the completeness fields of a word-classification fold are those
of its start state. -/
theorem foldl_fields (today : PDate) (ws : List Str) (t0 t : Task)
    (h : some (List.foldl (parseWord today) t0 ws) = some t) :
    t.is_complete = t0.is_complete ∧ t.completion_date = t0.completion_date := by
  have h2 := Option.some.inj h
  rw [← h2]
  exact ⟨foldl_parseWord_is_complete today _ _, foldl_parseWord_completion_date today _ _⟩

/-- Lemma: `parseFields` on a line starting `x w2 ...` marks the task
complete and stores `parseDate w2` as its completion date. -/
theorem parseFields_x (today : PDate) (lowest : Str) (w2 : Str) (rest2 : List Str)
    (t : Task) (h : parseFields today lowest ("x".data :: w2 :: rest2) = some t) :
    t.is_complete = true ∧ t.completion_date = parseDate w2 := by
  have hf := foldl_fields today _ _ t h
  exact ⟨hf.1.trans rfl, hf.2.trans rfl⟩

/-- Lemma: `parseFields` on a line whose first word is not `x` leaves the
task pending with no completion date. -/
theorem parseFields_not_x (today : PDate) (lowest : Str) (w : Str) (rest : List Str)
    (hx : w ≠ "x".data) (t : Task)
    (h : parseFields today lowest (w :: rest) = some t) :
    t.is_complete = false ∧ t.completion_date = none := by
  simp only [parseFields, if_neg hx] at h
  split at h <;> exact ⟨(foldl_fields today _ _ t h).1.trans rfl,
    (foldl_fields today _ _ t h).2.trans rfl⟩

/-- C4: parsing stores the input line verbatim in `rawText`, and re-parsing
that stored text yields a field-for-field identical task. -/
theorem c4_parse_idempotent (today : PDate) (lowest : Str) (line : Str) (t : Task)
    (h : parseLine today lowest line = some t) :
    t.text = line ∧ parseLine today lowest t.text = some t := by
  unfold parseLine at h ⊢
  cases hf : parseFields today lowest (splitOnChar ' ' line) with
  | none => rw [hf] at h; simp at h
  | some t0 =>
    rw [hf] at h
    simp only [Option.map_some', Option.some.injEq] at h
    have ht : t.text = line := by rw [← h]
    refine ⟨ht, ?_⟩
    rw [ht, hf]
    simpa using h

/-- Closed instantiation of `c4_parse_idempotent` at a concrete line. -/
theorem c4_witness :
    wt4.text = "(A) call mom @phone".data ∧
    parseLine dW ['D'] wt4.text = some wt4 :=
  c4_parse_idempotent dW ['D'] "(A) call mom @phone".data wt4 (by decide)

/-- C6, counterexample: on the parsed task `"(D) a () b"` (pending, priority
D, at the configured lowest priority), `decreasePriority` does strip the
leading four characters, but it does not leave the remainder unchanged: the
remainder `"a () b"` becomes `"a  b"`, because the code also removes the
first occurrence of `"()"` (the parentheses formatted around the
just-cleared priority). -/
theorem c6_counterexample :
    (parseLine dW ['D'] "(D) a () b".data).map (fun t => t.is_complete) = some false ∧
    (parseLine dW ['D'] "(D) a () b".data).map (fun t => t.priority) = some ['D'] ∧
    (parseLine dW ['D'] "(D) a () b".data).map
      (fun t => strGE t.priority t.lowest_priority) = some true ∧
    (parseLine dW ['D'] "(D) a () b".data).map (fun t => t.text.drop 4) =
      some "a () b".data ∧
    ((parseLine dW ['D'] "(D) a () b".data).bind decreasePriority).map (fun t => t.text) =
      some "a  b".data ∧
    "a  b".data ≠ "a () b".data := by
  decide

/-- C6, amended: for a pending task whose priority is present and
alphabetically at or below the configured lowest priority, and whose text
after the four-character prefix contains no occurrence of `"()"`,
`decreasePriority` clears the priority and strips exactly the leading
four-character `"(X) "` prefix, leaving the remainder unchanged. -/
theorem c6_decrease_clears (t : Task) (h1 : t.is_complete = false)
    (_h2 : t.priority ≠ []) (h3 : strGE t.priority t.lowest_priority = true)
    (h4 : containsSub ['(', ')'] (t.text.drop 4) = false) :
    decreasePriority t = some { t with priority := [], text := t.text.drop 4 } := by
  unfold decreasePriority
  rw [if_neg (by simp [h1]), if_pos h3, replaceFirst_of_not_contains _ _ _ h4]

/-- Closed instantiation of `c6_decrease_clears` on a concrete priority-D
task at the lowest priority. -/
theorem c6_witness :
    decreasePriority wt6 = some { wt6 with priority := [], text := wt6.text.drop 4 } :=
  c6_decrease_clears wt6 (by decide) (by decide) (by decide) (by decide)

/-- C5: for a task that is not complete and whose text does not already
start with a completion marker, `setCompleted()` followed by `setPending()`
restores the original raw text and leaves the task pending with no
completion date.  The two hypotheses on `today` say that today's date
survives a format/parse round trip and formats without spaces, which holds
for every four-digit-year calendar date. -/
theorem c5_complete_pending_roundtrip (t : Task) (today : PDate)
    (h1 : t.is_complete = false)
    (_h2 : (splitOnChar ' ' t.text).headD [] ≠ "x".data)
    (h3 : parseDate (formatDate today) = some today)
    (h4 : ' ' ∉ formatDate today) :
    (setPending (setCompleted today t)).map (fun u => u.text) = some t.text ∧
    (setPending (setCompleted today t)).map (fun u => u.is_complete) = some false ∧
    (setPending (setCompleted today t)).map (fun u => u.completion_date) = some none := by
  have hsc : setCompleted today t =
      { t with completion_date := some today,
               text := 'x' :: ' ' :: (formatDate today ++ ' ' :: t.text),
               is_complete := true } := by
    unfold setCompleted
    rw [if_neg (by simp [h1])]
  have hsplit : splitOnChar ' ' ('x' :: ' ' :: (formatDate today ++ ' ' :: t.text)) =
      ['x'] :: formatDate today :: splitOnChar ' ' t.text := by
    have h5 : (' ' : Char) ∉ ['x'] := by decide
    have ha := splitOnChar_append_sep ' ' ['x'] (formatDate today ++ ' ' :: t.text) h5
    have hb := splitOnChar_append_sep ' ' (formatDate today) t.text h4
    simpa [hb] using ha
  rw [hsc]
  unfold setPending
  simp only [if_pos rfl]
  rw [hsplit]
  simp only [h3]
  simp [joinChar_splitOnChar]

/-- Closed instantiation of `c5_complete_pending_roundtrip` on a concrete
pending task and a concrete today. -/
theorem c5_witness :
    (setPending (setCompleted dW wt5)).map (fun u => u.text) = some wt5.text ∧
    (setPending (setCompleted dW wt5)).map (fun u => u.is_complete) = some false ∧
    (setPending (setCompleted dW wt5)).map (fun u => u.completion_date) = some none :=
  c5_complete_pending_roundtrip wt5 dW (by decide) (by decide) (by decide) (by decide)

/-- C3, counterexample: parsing the line `"x buy"` (first token `x`, second
token not a date) yields a task with `isComplete` true but `completionDate`
null, so parsing does not establish the claimed invariant. -/
theorem c3_counterexample :
    (parseLine dW ['D'] "x buy".data).map (fun t => t.is_complete) = some true ∧
    (parseLine dW ['D'] "x buy".data).map (fun t => t.completion_date) = some none ∧
    (parseLine dW ['D'] "x buy".data).map (fun t => decide (invar t)) = some false := by
  decide

/-- C3, amended: the four mutators preserve the invariant "completionDate is
set iff isComplete"; parsing establishes it for every line whose first token
is not `x`; but on a line whose first token is `x`, the parsed task is
complete and its completion date is whatever `parseDate` yields on the
second token — so the invariant fails after parsing exactly when that token
is not a valid date. -/
theorem c3_invariant_mutators_and_parse :
    (∀ (today : PDate) (t : Task), invar t → invar (setCompleted today t)) ∧
    (∀ (t t' : Task), setPending t = some t' → invar t → invar t') ∧
    (∀ (t t' : Task), increasePriority t = some t' → invar t → invar t') ∧
    (∀ (t t' : Task), decreasePriority t = some t' → invar t → invar t') ∧
    (∀ (today : PDate) (lowest line : Str) (t : Task),
      parseLine today lowest line = some t →
      ((splitOnChar ' ' line).headD [] ≠ "x".data → invar t) ∧
      ((splitOnChar ' ' line).headD [] = "x".data →
        t.is_complete = true ∧
        t.completion_date = parseDate ((splitOnChar ' ' line).getD 1 []))) := by
  refine ⟨?_, ?_, ?_, ?_, ?_⟩
  · intro today t h
    unfold setCompleted
    split
    · exact h
    · simp [invar]
  · intro t t' h hi
    unfold setPending at h
    split at h
    · split at h
      · split at h <;> (rw [← Option.some.inj h]; simp [invar])
      · simp at h
    · rw [← Option.some.inj h]; exact hi
  · intro t t' h hi
    unfold increasePriority at h
    repeat' split at h
    all_goals first
      | (rw [← Option.some.inj h]; exact hi)
      | simp at h
  · intro t t' h hi
    unfold decreasePriority at h
    repeat' split at h
    all_goals first
      | (rw [← Option.some.inj h]; exact hi)
      | simp at h
  · intro today lowest line t h
    unfold parseLine at h
    cases hf : parseFields today lowest (splitOnChar ' ' line) with
    | none => rw [hf] at h; simp at h
    | some t0 =>
      rw [hf] at h
      simp only [Option.map_some', Option.some.injEq] at h
      have hic : t.is_complete = t0.is_complete := by rw [← h]
      have hcd : t.completion_date = t0.completion_date := by rw [← h]
      cases hs : splitOnChar ' ' line with
      | nil => exact absurd hs (splitOnChar_ne_nil ' ' line)
      | cons w rest =>
        rw [hs] at hf
        by_cases hx : w = "x".data
        · refine ⟨fun hne => absurd (by simp [hs, hx]) hne, fun _ => ?_⟩
          cases rest with
          | nil => rw [hx] at hf; simp [parseFields] at hf
          | cons w2 r2 =>
            rw [hx] at hf
            have hp := parseFields_x today lowest w2 r2 t0 hf
            refine ⟨hic.trans hp.1, ?_⟩
            rw [hcd, hp.2]
            rfl
        · refine ⟨fun _ => ?_, fun heq => ?_⟩
          · have hp := parseFields_not_x today lowest w rest hx t0 hf
            unfold invar
            rw [hic, hcd, hp.1, hp.2]
            rfl
          · simp at heq
            exact absurd heq hx

/-- Closed instantiation of `c3_invariant_mutators_and_parse`: completing a
concrete pending task preserves the invariant. -/
theorem c3_witness : invar (setCompleted dW wt5) :=
  c3_invariant_mutators_and_parse.1 dW wt5 (by decide)

end TaskLib
